import Mathlib

/-!
Shallow embedding of the Interest Aggregation Engine of
`src/interest-kit.js` (InterestStorage + the InterestKit affinity/query
helpers), together with theorems settling the specification claims.

Modelling conventions:
* JS objects with string keys are association lists in property-insertion
  order (keys are treated as opaque strings; the special JS ordering of
  integer-like property names is outside the modelled domain).
* Absent JS properties are `none`; JS numbers are `ℚ` for raw weights and
  click counts (exact arithmetic) and `ℝ` where the exponential decay
  model forces real analysis; timestamps are `ℕ` milliseconds.
* A JS `TypeError` escaping a function is `Except.error ()`.
* The persistence adapter is a list of written snapshots carried by the
  `Engine` state; `save` appends to it.
-/

namespace InterestKit

/-- One bucket of `data.buckets`: entity key to accumulated raw weight,
in property-insertion order. -/
abbrev Bucket := List (String × ℚ)

/-- `data.buckets`: bucket name to bucket. -/
abbrev Buckets := List (String × Bucket)

/-- Entity metadata record (the values of `data.meta[bucket]`), with the
reserved fields of src/interest-kit.js; absent properties are `none`,
`others` holds the caller-supplied attributes merged by `Object.assign`. -/
structure MetaRec where
  clicks : Option ℕ := none
  lastClickAt : Option ℕ := none
  affinity : Option ℝ := none
  affinityUpdatedAt : Option ℕ := none
  lastSeenAt : Option ℕ := none
  others : List (String × String) := []

/-- The empty metadata record (`{}` in JS). -/
def emptyMeta : MetaRec := {}

/-- `data.meta[bucket]`: entity key to metadata record. -/
abbrev MetaBucket := List (String × MetaRec)

/-- `data.meta`: bucket name to metadata bucket. -/
abbrev MetaMap := List (String × MetaBucket)

/-- The active in-memory snapshot (`data` in `InterestStorage`).
`buckets` is always a real object in every reachable state (createData,
load and importJSON all guarantee it), but `meta` can be absent after
an imported document lacked a `meta` field, so it stays optional. -/
structure WSnap where
  version : Option ℕ
  updatedAt : Option ℕ
  buckets : Buckets
  meta : Option MetaMap
  siteTitle : Option String
  sessionId : Option String

/-- A parsed persisted or imported JSON document: every field optional,
`none` standing for a missing (or, for `buckets`/`meta`, non-object)
field. -/
structure Doc where
  version : Option ℕ := none
  updatedAt : Option ℕ := none
  buckets : Option Buckets := none
  meta : Option MetaMap := none
  siteTitle : Option String := none
  sessionId : Option String := none

/-- Result of `JSON.parse` on the persisted blob: `notJson` is a parse
exception, `scalar` is a successfully parsed value that is `null` or not
an object (number, string, boolean), `doc` a parsed object. -/
inductive Parsed where
  | notJson : Parsed
  | scalar : Parsed
  | doc : Doc → Parsed

/-- Association-list lookup, mirroring JS property access `m[k]`. -/
def alook {V : Type} (m : List (String × V)) (k : String) : Option V :=
  match m with
  | [] => none
  | (k0, v0) :: rest => if k0 = k then some v0 else alook rest k

/-- Association-list write, mirroring JS property write `m[k] = v`
(updates in place, appends a new key at the end). -/
def aset {V : Type} (m : List (String × V)) (k : String) (v : V) : List (String × V) :=
  match m with
  | [] => [(k, v)]
  | (k0, v0) :: rest => if k0 = k then (k, v) :: rest else (k0, v0) :: aset rest k v

/-- `toNumber(w, 1)` as used by `inc`: a non-finite weight (undefined,
NaN, infinities, modelled as `none`) falls back to 1. -/
def jsWeight (w : Option ℚ) : ℚ := w.getD 1

/-- Raw weight stored for `(b, k)`: `data.buckets[b][k]` read through the
defaults `|| {}` / absent. -/
def bLook (st : WSnap) (b k : String) : Option ℚ :=
  alook ((alook st.buckets b).getD []) k

/-- `createData()` (line 48): the fresh empty snapshot carrying the
current fingerprint. -/
def createData (current : String) (t : ℕ) : WSnap :=
  { version := some 1, updatedAt := some t, buckets := [], meta := some []
    siteTitle := some current, sessionId := none }

/-- `load()` (lines 54-75): absent blob, parse exception, or a parsed
value that is null or not an object all yield `createData`; an object has
missing/non-object `buckets` and `meta` replaced by `{}`, then the
identity guard compares a truthy persisted `siteTitle` with the current
fingerprint, resetting on mismatch and otherwise keeping the document
(filling in `siteTitle` when falsy). -/
def load (raw : Option Parsed) (current : String) (t : ℕ) : WSnap :=
  match raw with
  | none => createData current t
  | some Parsed.notJson => createData current t
  | some Parsed.scalar => createData current t
  | some (Parsed.doc d) =>
    let s := d.siteTitle.getD ""
    if s ≠ "" ∧ s ≠ current then createData current t
    else
      { version := d.version
        updatedAt := d.updatedAt
        buckets := d.buckets.getD []
        meta := some (d.meta.getD [])
        siteTitle := some (if s = "" then current else s)
        sessionId := d.sessionId }

/-- Engine state: the active snapshot plus the sequence of snapshots
written to the storage adapter (`localStorage.setItem`). -/
structure Engine where
  snap : WSnap
  writes : List WSnap

/-- `save()` (line 76): stamp `updatedAt` and write the snapshot out. -/
def save (e : Engine) (t : ℕ) : Engine :=
  let s := { e.snap with updatedAt := some t }
  { snap := s, writes := e.writes ++ [s] }

/-- `inc(bucket, key, weight)` (lines 77-84). -/
def inc (e : Engine) (b k : String) (w : Option ℚ) (t : ℕ) : Engine :=
  if b = "" ∨ k = "" then e
  else
    let bm := (alook e.snap.buckets b).getD []
    let bm2 := aset bm k ((alook bm k).getD 0 + jsWeight w)
    save { e with snap := { e.snap with buckets := aset e.snap.buckets b bm2 } } t

/-- `set(bucket, key, value)` (lines 85-91): raw-weight overwrite. -/
def set (e : Engine) (b k : String) (v : ℚ) (t : ℕ) : Engine :=
  if b = "" ∨ k = "" then e
  else
    let bm := (alook e.snap.buckets b).getD []
    save { e with snap := { e.snap with buckets := aset e.snap.buckets b (aset bm k v) } } t

/-- `Object.assign({}, cur, p)`: fields present in `p` win, absent fields
keep `cur`; caller-supplied attributes override per key. -/
def assign (cur p : MetaRec) : MetaRec :=
  { clicks := p.clicks <|> cur.clicks
    lastClickAt := p.lastClickAt <|> cur.lastClickAt
    affinity := p.affinity <|> cur.affinity
    affinityUpdatedAt := p.affinityUpdatedAt <|> cur.affinityUpdatedAt
    lastSeenAt := p.lastSeenAt <|> cur.lastSeenAt
    others := p.others.foldl (fun acc q => aset acc q.1 q.2) cur.others }

/-- `getMeta(bucket, key)` (lines 99-102). Accessing `data.meta[bucket]`
throws a TypeError when `data.meta` is undefined. -/
def getMeta (st : WSnap) (b k : String) : Except Unit MetaRec :=
  match st.meta with
  | none => Except.error ()
  | some mm => Except.ok ((alook ((alook mm b).getD []) k).getD emptyMeta)

/-- `setMeta(bucket, key, meta)` (lines 92-98): no-op on falsy arguments,
otherwise shallow-merges into the existing record; throws when
`data.meta` is undefined. -/
def setMeta (e : Engine) (b k : String) (p : Option MetaRec) (t : ℕ) : Except Unit Engine :=
  match p with
  | none => Except.ok e
  | some pm =>
    if b = "" ∨ k = "" then Except.ok e
    else
      match e.snap.meta with
      | none => Except.error ()
      | some mm =>
        let byB := (alook mm b).getD []
        let cur := (alook byB k).getD emptyMeta
        let merged := assign cur pm
        Except.ok (save { e with snap := { e.snap with meta := some (aset mm b (aset byB k merged)) } } t)

/-- Stable insertion (descending by `key`): skip past strictly greater
keys, so an inserted element lands before every element of equal key. -/
def insDesc {α β : Type} [LinearOrder β] (key : α → β) (x : α) : List α → List α
  | [] => [x]
  | y :: ys => if key x < key y then y :: insDesc key x ys else x :: y :: ys

/-- Stable sort, descending by `key`: the unique stable result of the JS
`sort((a,b) => keyB - keyA)` comparator on a stable sort. -/
def sortDesc {α β : Type} [LinearOrder β] (key : α → β) : List α → List α
  | [] => []
  | x :: xs => insDesc key x (sortDesc key xs)

/-- `Array.prototype.slice(0, e)`: a nonnegative end takes a prefix, a
negative end drops the last `|e|` elements (clamped at nothing). -/
def jsSlice {α : Type} (l : List α) (e : ℤ) : List α :=
  if 0 ≤ e then l.take e.toNat else l.take (l.length - (-e).toNat)

/-- `getTop(bucket, n)` (lines 103-106): `n` is `toNumber(n, 5)`, with
`none` standing for any non-finite cutoff (absent, NaN, infinities). -/
def getTop (st : WSnap) (b : String) (n : Option ℤ) : List (String × ℚ) :=
  jsSlice (sortDesc Prod.snd ((alook st.buckets b).getD [])) (n.getD 5)

/-- A structural deep copy of the snapshot, as produced by
`JSON.parse(JSON.stringify(data))` in `exportJSON` (line 108). -/
def copySnap (st : WSnap) : WSnap :=
  { version := st.version
    updatedAt := st.updatedAt
    buckets := st.buckets.map (fun p => (p.1, p.2.map (fun q => (q.1, q.2))))
    meta := st.meta.map (fun mm => mm.map (fun p => (p.1, p.2.map (fun q => (q.1, q.2)))))
    siteTitle := st.siteTitle
    sessionId := st.sessionId }

/-- `importJSON(obj)` (line 109): replace `data` wholesale when the
supplied document exists and has a truthy `buckets`, then save;
otherwise do nothing. -/
def importJSON (obj : Option Doc) (e : Engine) (t : ℕ) : Engine :=
  match obj with
  | none => e
  | some o =>
    match o.buckets with
    | none => e
    | some b =>
      save { e with snap :=
        { version := o.version, updatedAt := o.updatedAt, buckets := b
          meta := o.meta, siteTitle := o.siteTitle, sessionId := o.sessionId } } t

/-- `reset()` (line 110). -/
def reset (e : Engine) (current : String) (t : ℕ) : Engine :=
  save { e with snap := createData current t } t

/-- Default stop words (DEFAULT_CONFIG.tokenStopWords, line 19). -/
def defaultStopWords : List String :=
  ["the", "and", "for", "with", "to", "of", "a", "in", "on", "by", "or", "at",
   "is", "it", "how", "make", "your", "you", "from"]

/-- Is a (lower-cased) character in `[a-z0-9]`? -/
def isAlnum (c : Char) : Bool :=
  (decide ('a' ≤ c) && decide (c ≤ 'z')) || (decide ('0' ≤ c) && decide (c ≤ '9'))

/-- One step (from the right) of `String.prototype.split(/[^a-z0-9]+/)`:
the state is the token list so far plus a flag telling whether the
character just to the right was a separator, so that a run of separators
produces a single split. -/
def splitStep (c : Char) (st : List String × Bool) : List String × Bool :=
  if isAlnum c then
    match st.1 with
    | [] => ([String.singleton c], false)
    | h :: rest => ((String.singleton c ++ h) :: rest, false)
  else if st.2 then (st.1, true)
  else ("" :: st.1, true)

/-- `String.prototype.split(/[^a-z0-9]+/)`: maximal alphanumeric runs,
with an empty token at a leading or trailing separator run (as JS
produces). -/
def splitRuns (cs : List Char) : List String :=
  (cs.foldr splitStep ([""], false)).1

/-- `tokenize(value, stop)` (lines 41-45): lower-case (ASCII, as the
engine's domain), split on runs of characters outside `[a-z0-9]`, keep
truthy tokens of length above one that are not stop words. -/
def tokenize (value : String) (stop : List String) : List String :=
  (splitRuns (value.data.map Char.toLower)).filter
    (fun tok => !(tok == "") && decide (1 < tok.length) && !(stop.contains tok))

/-- `recordTokens(bucket, value, weight)` (lines 377-381): one `inc` per
surviving token. -/
def recordTokens (stop : List String) (e : Engine) (b : String) (value : String)
    (w : Option ℚ) (t : ℕ) : Engine :=
  (tokenize value stop).foldl (fun acc tok => inc acc b tok w t) e

/-- `record({bucket, key, weight, meta})` (lines 371-376): increment,
then merge metadata when supplied. -/
def record (e : Engine) (b k : String) (w : Option ℚ) (m : Option MetaRec)
    (t : ℕ) : Except Unit Engine :=
  let e1 := inc e b k w t
  match m with
  | none => Except.ok e1
  | some pm => setMeta e1 b k (some pm) t

/-- The JS falsy-aware timestamp fallback `x || y`: an absent or zero
timestamp falls through to the alternative. -/
def tsOr (x : Option ℕ) (y : ℕ) : ℕ :=
  match x with
  | some v => if v = 0 then y else v
  | none => y

/-- `round2(n)` (line 46): `Math.round(n * 100) / 100`, where
`Math.round` rounds half toward positive infinity, as Mathlib `round`. -/
noncomputable def round2 (x : ℝ) : ℝ := ((round (x * 100) : ℤ) : ℝ) / 100

/-- `_decayValue(current, lastTs, nowTs)` (lines 396-402): a falsy value
or timestamp escapes decay; otherwise exponential decay over the clamped
elapsed time with rate `ln 2 / halfLife`. -/
noncomputable def decayValue (halfLife : ℝ) (current : ℝ) (lastTs nowTs : ℕ) : ℝ :=
  if current = 0 then 0
  else if lastTs = 0 then current
  else current * Real.exp (-(Real.log 2 / halfLife) * ((nowTs - lastTs : ℕ) : ℝ))

/-- The affinity number computed by `_updateAffinity` (lines 403-413)
before it is written back: project the stored affinity to now (decay
start `affinityUpdatedAt`, else `lastSeenAt`, else now), add the delta,
round to two decimals. -/
noncomputable def updAff (halfLife : ℝ) (m : MetaRec) (delta : ℝ) (t : ℕ) : ℝ :=
  round2 (decayValue halfLife (m.affinity.getD 0)
    (tsOr m.affinityUpdatedAt (tsOr m.lastSeenAt t)) t + delta)

/-- The partial metadata record `{affinity, affinityUpdatedAt: t}` that
`_updateAffinity` merges back. -/
def affPartial (a : ℝ) (t : ℕ) : MetaRec :=
  { affinity := some a, affinityUpdatedAt := some t }

/-- `_updateAffinity(bucket, key, delta)` (lines 403-413) at the storage
level: read the metadata (a throw propagates), compute the projected and
rounded affinity, merge it back. -/
noncomputable def updateAffinity (halfLife : ℝ) (e : Engine) (b k : String)
    (delta : ℝ) (t : ℕ) : Except Unit Engine :=
  match getMeta e.snap b k with
  | Except.error _ => Except.error ()
  | Except.ok m => setMeta e b k (some (affPartial (updAff halfLife m delta t) t)) t

/-- The affinity value `getAffinity` (line 414) reads from one metadata
record: live projection through the decay engine, rounded. -/
noncomputable def getAffinityMeta (halfLife : ℝ) (m : MetaRec) (t : ℕ) : ℝ :=
  round2 (decayValue halfLife (m.affinity.getD 0)
    (tsOr m.affinityUpdatedAt (tsOr m.lastSeenAt t)) t)

/-- `getAffinity(bucket, key)` (line 414) over a snapshot; the `getMeta`
throw on a meta-less snapshot propagates. -/
noncomputable def getAffinitySnap (halfLife : ℝ) (st : WSnap) (b k : String)
    (t : ℕ) : Except Unit ℝ :=
  (getMeta st b k).map (fun m => getAffinityMeta halfLife m t)

/-- `getClickCount(bucket, key)` (line 393). -/
def getClickCount (st : WSnap) (b k : String) : Except Unit ℕ :=
  (getMeta st b k).map (fun m => m.clicks.getD 0)

/-- `getTopByClicks(bucket, n)` (line 394): rank a bucket's metadata by
click count descending; accessing `data.meta[bucket]` throws when
`data.meta` is undefined. -/
def getTopByClicks (st : WSnap) (b : String) (n : Option ℤ) : Except Unit (List (String × ℕ)) :=
  match st.meta with
  | none => Except.error ()
  | some mm =>
    Except.ok (jsSlice
      (sortDesc Prod.snd (((alook mm b).getD []).map (fun p => (p.1, p.2.clicks.getD 0))))
      (n.getD 5))

/-- `getTopByAffinity(bucket, n)` (line 415): live-projected affinity
ranking over a bucket's metadata. -/
noncomputable def getTopByAffinity (halfLife : ℝ) (st : WSnap) (b : String)
    (n : Option ℤ) (t : ℕ) : Except Unit (List (String × ℝ)) :=
  match st.meta with
  | none => Except.error ()
  | some mm =>
    Except.ok (jsSlice
      (sortDesc Prod.snd (((alook mm b).getD []).map (fun p =>
        (p.1, round2 (decayValue halfLife (p.2.affinity.getD 0)
          (tsOr p.2.affinityUpdatedAt (tsOr p.2.lastSeenAt t)) t)))))
      (n.getD 5))

/-- One row returned by `getTopItems`. -/
structure ItemEntry where
  key : String
  affinity : ℝ
  lastSeenAt : ℕ
  meta : MetaRec

/-- `getTopItems(n)` (line 416): the canonical `items` metadata bucket,
ranked by projected affinity descending, ties by last-seen descending;
this query defends `data.meta || {}` and so never throws. -/
noncomputable def getTopItems (halfLife : ℝ) (st : WSnap) (n : Option ℤ)
    (t : ℕ) : List ItemEntry :=
  let itemsMeta := (alook (st.meta.getD []) "items").getD []
  let entries := itemsMeta.map (fun p =>
    { key := p.1
      affinity := round2 (decayValue halfLife (p.2.affinity.getD 0)
        (tsOr p.2.affinityUpdatedAt (tsOr p.2.lastSeenAt t)) t)
      lastSeenAt := tsOr p.2.lastSeenAt (tsOr p.2.affinityUpdatedAt 0)
      meta := p.2 : ItemEntry })
  jsSlice (sortDesc (fun it => toLex (it.affinity, it.lastSeenAt)) entries) (n.getD 5)

/-- Engine-level read wrapper for `getTop` (line 385): the pair records
that the call returns the engine state it was given. -/
def getTopE (e : Engine) (b : String) (n : Option ℤ) : Engine × List (String × ℚ) :=
  (e, getTop e.snap b n)

/-- Engine-level read wrapper for `getMeta`. -/
def getMetaE (e : Engine) (b k : String) : Engine × Except Unit MetaRec :=
  (e, getMeta e.snap b k)

/-- Engine-level read wrapper for `getAffinity`. -/
noncomputable def getAffinityE (halfLife : ℝ) (e : Engine) (b k : String)
    (t : ℕ) : Engine × Except Unit ℝ :=
  (e, getAffinitySnap halfLife e.snap b k t)

/-- Engine-level read wrapper for `getClickCount`. -/
def getClickCountE (e : Engine) (b k : String) : Engine × Except Unit ℕ :=
  (e, getClickCount e.snap b k)

/-- Engine-level read wrapper for `getTopByClicks`. -/
def getTopByClicksE (e : Engine) (b : String) (n : Option ℤ) :
    Engine × Except Unit (List (String × ℕ)) :=
  (e, getTopByClicks e.snap b n)

/-- Engine-level read wrapper for `getTopByAffinity`. -/
noncomputable def getTopByAffinityE (halfLife : ℝ) (e : Engine) (b : String)
    (n : Option ℤ) (t : ℕ) : Engine × Except Unit (List (String × ℝ)) :=
  (e, getTopByAffinity halfLife e.snap b n t)

/-- Engine-level read wrapper for `getTopItems`. -/
noncomputable def getTopItemsE (halfLife : ℝ) (e : Engine) (n : Option ℤ)
    (t : ℕ) : Engine × List ItemEntry :=
  (e, getTopItems halfLife e.snap n t)

/-- Engine-level read wrapper for `export` (line 389): a deep copy of the
active snapshot. -/
def exportJSONE (e : Engine) : Engine × WSnap :=
  (e, copySnap e.snap)

/-! ### Association-list helper lemmas -/

theorem alook_aset_self {V : Type} (m : List (String × V)) (k : String) (v : V) :
    alook (aset m k v) k = some v := by
  induction m with
  | nil => simp [aset, alook]
  | cons p rest ih =>
    by_cases h : p.1 = k
    · simp [aset, alook, h]
    · simp [aset, alook, h, ih]

theorem alook_aset_ne {V : Type} (m : List (String × V)) (k k' : String) (v : V)
    (h : k' ≠ k) : alook (aset m k v) k' = alook m k' := by
  have h' : ¬(k = k') := fun hh => h hh.symm
  induction m with
  | nil => simp [aset, alook, h']
  | cons p rest ih =>
    by_cases hp : p.1 = k
    · subst hp
      simp [aset, alook, h']
    · by_cases hp' : p.1 = k'
      · simp [aset, alook, hp, hp', h]
      · simp [aset, alook, hp, hp', ih]

/-- Effect of `inc` on every stored raw weight: the addressed pair gains
exactly the coerced weight (created at zero if absent), everything else
including the empty-argument no-op case is untouched. -/
theorem inc_look (e : Engine) (b k : String) (w : Option ℚ) (t : ℕ) (B K : String) :
    bLook (inc e b k w t).snap B K =
      if b ≠ "" ∧ k ≠ "" ∧ B = b ∧ K = k
      then some ((bLook e.snap B K).getD 0 + jsWeight w)
      else bLook e.snap B K := by
  by_cases hbk : b = "" ∨ k = ""
  · have : ¬(b ≠ "" ∧ k ≠ "" ∧ B = b ∧ K = k) := by
      rcases hbk with h | h <;> simp [h]
    simp [inc, hbk, this]
  · push_neg at hbk
    by_cases hB : B = b
    · subst hB
      by_cases hK : K = k
      · subst hK
        simp [inc, hbk.1, hbk.2, save, bLook, alook_aset_self]
      · simp [inc, hbk.1, hbk.2, hK, save, bLook, alook_aset_self, alook_aset_ne _ _ _ _ hK]
    · simp [inc, hbk.1, hbk.2, hB, save, bLook, alook_aset_ne _ _ _ _ hB]

/-! ### C1: Load structural validation -/

/-- Example persisted document whose `buckets` field is missing but whose
`meta` carries content. -/
def docNoBuckets : Doc :=
  { meta := some [("b", [("k", { emptyMeta with clicks := some 3 })])]
    siteTitle := some "T" }

/-- C1 counterexample: a persisted blob that parses to a document with a
missing `buckets` field (and a matching fingerprint) is NOT replaced by a
fresh empty snapshot — `load` keeps its `meta` contents, repairing only
`buckets`. -/
theorem load_missing_buckets_keeps_doc :
    load (some (Parsed.doc docNoBuckets)) "T" 100 ≠ createData "T" 100 ∧
    (load (some (Parsed.doc docNoBuckets)) "T" 100).meta =
      some [("b", [("k", { emptyMeta with clicks := some 3 })])] ∧
    (createData "T" 100).meta = some [] := by
  refine ⟨?_, by simp [load, docNoBuckets], by simp [createData]⟩
  intro h
  have hm := congrArg WSnap.meta h
  simp [load, docNoBuckets, createData] at hm

/-- C1 (amended): an absent blob, a parse failure, and a parsed value
that is null or not an object each give a fresh empty snapshot (so no
parse error ever reaches the caller); a parsed object with a missing or
non-object `buckets` (or `meta`) field instead keeps the document's
contents with that field repaired to an empty object. -/
theorem load_structural_repair (current : String) (t : ℕ) :
    load none current t = createData current t ∧
    load (some Parsed.notJson) current t = createData current t ∧
    load (some Parsed.scalar) current t = createData current t ∧
    (∀ d : Doc, d.siteTitle = none →
      load (some (Parsed.doc d)) current t =
        { version := d.version, updatedAt := d.updatedAt
          buckets := d.buckets.getD [], meta := some (d.meta.getD [])
          siteTitle := some current, sessionId := d.sessionId }) ∧
    (∀ d : Doc, d.siteTitle = some current → current ≠ "" →
      load (some (Parsed.doc d)) current t =
        { version := d.version, updatedAt := d.updatedAt
          buckets := d.buckets.getD [], meta := some (d.meta.getD [])
          siteTitle := some current, sessionId := d.sessionId }) := by
  refine ⟨rfl, rfl, rfl, ?_, ?_⟩
  · intro d hd
    simp [load, hd]
  · intro d hd hc
    simp [load, hd, hc]

/-- Witness for C1's amended theorem: the concrete bucket-less document
is kept, with `buckets` repaired. -/
theorem load_structural_repair_witness :
    load (some (Parsed.doc docNoBuckets)) "T" 100 =
      { version := none, updatedAt := none, buckets := []
        meta := some [("b", [("k", { emptyMeta with clicks := some 3 })])]
        siteTitle := some "T", sessionId := none } := by
  have h := (load_structural_repair "T" 100).2.2.2.2 docNoBuckets rfl (by decide)
  simpa [docNoBuckets] using h

/-! ### C2: getMeta after a meta-less import -/

/-- An initialized engine holding a fresh snapshot. -/
def engine0 : Engine := { snap := createData "T" 0, writes := [] }

/-- A document with a `buckets` mapping but no `meta` field, accepted by
`import`. -/
def docNoMeta : Doc := { buckets := some [] }

/-- C2 (code bug evaluation): before the import `getMeta` returns the
empty record, but after a successful `import` of a document lacking
`meta`, `getMeta` throws (accessing `data.meta[bucket]` on undefined)
instead of returning an empty record. -/
theorem getMeta_throws_after_metaless_import :
    getMeta engine0.snap "b" "k" = Except.ok emptyMeta ∧
    (importJSON (some docNoMeta) engine0 1).snap.meta = none ∧
    getMeta (importJSON (some docNoMeta) engine0 1).snap "b" "k" = Except.error () := by
  refine ⟨rfl, rfl, rfl⟩

/-! ### C6: import replaces iff the document has buckets -/

/-- C6: `import` replaces the active snapshot wholesale (stamping
`updatedAt` through the save) exactly when the supplied document exists
and carries a `buckets` mapping; otherwise the whole engine state,
storage writes included, is unchanged. -/
theorem importJSON_iff_buckets (e : Engine) (t : ℕ) :
    (importJSON none e t = e) ∧
    (∀ o : Doc, o.buckets = none → importJSON (some o) e t = e) ∧
    (∀ (o : Doc) (b : Buckets), o.buckets = some b →
      (importJSON (some o) e t).snap =
        { version := o.version, updatedAt := some t, buckets := b
          meta := o.meta, siteTitle := o.siteTitle, sessionId := o.sessionId } ∧
      (importJSON (some o) e t).writes =
        e.writes ++ [(importJSON (some o) e t).snap]) := by
  refine ⟨rfl, ?_, ?_⟩
  · intro o ho
    simp [importJSON, ho]
  · intro o b ho
    constructor
    · simp [importJSON, ho, save]
    · simp [importJSON, ho, save]

/-- Witness for C6: a concrete document with (empty) buckets replaces
the snapshot; a concrete document without buckets is a no-op. -/
theorem importJSON_iff_buckets_witness :
    (importJSON (some { buckets := some [("recipe", [("x", 3)])] : Doc }) engine0 7).snap =
      { version := none, updatedAt := some 7, buckets := [("recipe", [("x", 3)])]
        meta := none, siteTitle := none, sessionId := none } ∧
    importJSON (some { meta := some [] : Doc }) engine0 7 = engine0 := by
  constructor
  · exact ((importJSON_iff_buckets engine0 7).2.2
      { buckets := some [("recipe", [("x", 3)])] } [("recipe", [("x", 3)])] rfl).1
  · exact (importJSON_iff_buckets engine0 7).2.1 { meta := some [] } rfl

/-! ### C7: identity guard -/

/-- C7: whenever the persisted document carries a truthy fingerprint
different from the current one, `load` discards it and yields the fresh
empty snapshot carrying the current fingerprint. -/
theorem load_identity_guard (d : Doc) (s current : String) (t : ℕ)
    (hs : d.siteTitle = some s) (hne : s ≠ "") (hcur : s ≠ current) :
    load (some (Parsed.doc d)) current t = createData current t ∧
    (createData current t).buckets = [] ∧
    (createData current t).meta = some [] ∧
    (createData current t).siteTitle = some current ∧
    (createData current t).sessionId = none := by
  refine ⟨?_, rfl, rfl, rfl, rfl⟩
  simp [load, hs, hne, hcur]

/-- Example persisted snapshot carrying fingerprint "Site A" and
non-empty contents. -/
def docSiteA : Doc :=
  { buckets := some [("recipe", [("pumpkin-soup", 3)])]
    meta := some [("recipe", [("pumpkin-soup", { emptyMeta with clicks := some 2 })])]
    siteTitle := some "Site A" }

/-- Witness for C7: loading a "Site A" snapshot under current fingerprint
"Site B" yields the empty snapshot fingerprinted "Site B". -/
theorem load_identity_guard_witness :
    load (some (Parsed.doc docSiteA)) "Site B" 100 = createData "Site B" 100 := by
  exact (load_identity_guard docSiteA "Site A" "Site B" 100 rfl (by decide) (by decide)).1

/-! ### Stable descending sort: permutation, sortedness, stability -/

theorem insDesc_perm {α β : Type} [LinearOrder β] (key : α → β) (x : α) (l : List α) :
    (insDesc key x l).Perm (x :: l) := by
  induction l with
  | nil => simp [insDesc]
  | cons y ys ih =>
    by_cases h : key x < key y
    · simpa [insDesc, h] using (ih.cons y).trans (List.Perm.swap x y ys)
    · simp [insDesc, h]

theorem sortDesc_perm {α β : Type} [LinearOrder β] (key : α → β) (l : List α) :
    (sortDesc key l).Perm l := by
  induction l with
  | nil => simp [sortDesc]
  | cons x xs ih => exact (insDesc_perm key x (sortDesc key xs)).trans (ih.cons x)

theorem mem_insDesc {α β : Type} [LinearOrder β] (key : α → β) (x a : α) (l : List α) :
    a ∈ insDesc key x l ↔ a = x ∨ a ∈ l :=
  ((insDesc_perm key x l).mem_iff).trans (by simp)

theorem insDesc_pairwise {α β : Type} [LinearOrder β] (key : α → β) (x : α) (l : List α)
    (h : l.Pairwise (fun a b => key b ≤ key a)) :
    (insDesc key x l).Pairwise (fun a b => key b ≤ key a) := by
  induction l with
  | nil => simp [insDesc]
  | cons y ys ih =>
    rw [List.pairwise_cons] at h
    by_cases hlt : key x < key y
    · rw [insDesc, if_pos hlt, List.pairwise_cons]
      refine ⟨?_, ih h.2⟩
      intro z hz
      rcases (mem_insDesc key x z ys).mp hz with hz | hz
      · exact hz ▸ le_of_lt hlt
      · exact h.1 z hz
    · rw [insDesc, if_neg hlt, List.pairwise_cons]
      refine ⟨?_, List.pairwise_cons.mpr h⟩
      intro z hz
      rcases List.mem_cons.mp hz with hz | hz
      · exact hz ▸ le_of_not_lt hlt
      · exact le_trans (h.1 z hz) (le_of_not_lt hlt)

theorem sortDesc_pairwise {α β : Type} [LinearOrder β] (key : α → β) (l : List α) :
    (sortDesc key l).Pairwise (fun a b => key b ≤ key a) := by
  induction l with
  | nil => simp [sortDesc]
  | cons x xs ih => exact insDesc_pairwise key x (sortDesc key xs) ih

theorem insDesc_filter_eq {α β : Type} [LinearOrder β] (key : α → β) (x : α)
    (l : List α) (w : β) (hx : key x = w) :
    (insDesc key x l).filter (fun a => key a = w) =
      x :: l.filter (fun a => key a = w) := by
  induction l with
  | nil => simp [insDesc, List.filter, hx]
  | cons y ys ih =>
    by_cases hlt : key x < key y
    · have hy : ¬(key y = w) := by
        intro hy
        rw [hx] at hlt
        exact absurd hy (ne_of_gt hlt)
      rw [insDesc, if_pos hlt]
      simpa [List.filter_cons, hy] using ih
    · rw [insDesc, if_neg hlt]
      simp [List.filter_cons, hx]

theorem insDesc_filter_ne {α β : Type} [LinearOrder β] (key : α → β) (x : α)
    (l : List α) (w : β) (hx : ¬(key x = w)) :
    (insDesc key x l).filter (fun a => key a = w) =
      l.filter (fun a => key a = w) := by
  induction l with
  | nil => simp [insDesc, List.filter, hx]
  | cons y ys ih =>
    by_cases hlt : key x < key y
    · rw [insDesc, if_pos hlt]
      simp only [List.filter_cons]
      by_cases hy : key y = w <;> simp [hy, ih]
    · rw [insDesc, if_neg hlt]
      simp [List.filter_cons, hx]

/-- Stability of the sort: for every key value, the elements carrying it
appear in the sorted list exactly in their original order. -/
theorem sortDesc_filter {α β : Type} [LinearOrder β] (key : α → β) (l : List α) (w : β) :
    (sortDesc key l).filter (fun a => key a = w) = l.filter (fun a => key a = w) := by
  induction l with
  | nil => simp [sortDesc]
  | cons x xs ih =>
    by_cases hx : key x = w
    · rw [sortDesc, insDesc_filter_eq key x _ w hx, ih, List.filter_cons, if_pos (by simpa using hx)]
    · rw [sortDesc, insDesc_filter_ne key x _ w hx, ih, List.filter_cons, if_neg (by simpa using hx)]

/-! ### C4: getTop ranking and cutoff -/

/-- The entry list of one bucket, in insertion order. -/
def bucketEntries (st : WSnap) (b : String) : Bucket :=
  (alook st.buckets b).getD []

/-- C4 (amended): `getTop` slices a stable weight-descending sort of the
bucket (a permutation of its entries, ties kept in insertion order) with
the JS `slice(0, toNumber(n, 5))`: an absent or non-finite `n` cuts at 5,
a nonnegative finite `n` takes the first `n` entries, zero included, and
a negative `n` drops the last `|n|` sorted entries. -/
theorem getTop_sorted_stable_sliced (st : WSnap) (b : String) (n : Option ℤ) :
    getTop st b n = jsSlice (sortDesc Prod.snd (bucketEntries st b)) (n.getD 5) ∧
    (sortDesc Prod.snd (bucketEntries st b)).Perm (bucketEntries st b) ∧
    (sortDesc Prod.snd (bucketEntries st b)).Pairwise (fun p q => q.2 ≤ p.2) ∧
    (∀ w : ℚ, (sortDesc Prod.snd (bucketEntries st b)).filter (fun p => p.2 = w) =
      (bucketEntries st b).filter (fun p => p.2 = w)) ∧
    (n = none → getTop st b n = (sortDesc Prod.snd (bucketEntries st b)).take 5) ∧
    (∀ m : ℤ, n = some m → 0 ≤ m →
      getTop st b n = (sortDesc Prod.snd (bucketEntries st b)).take m.toNat) ∧
    (∀ m : ℤ, n = some m → m < 0 →
      getTop st b n = (sortDesc Prod.snd (bucketEntries st b)).take
        ((sortDesc Prod.snd (bucketEntries st b)).length - (-m).toNat)) := by
  refine ⟨rfl, sortDesc_perm _ _, sortDesc_pairwise _ _, fun w => sortDesc_filter _ _ w,
    ?_, ?_, ?_⟩
  · intro hn
    subst hn
    simp [getTop, jsSlice, bucketEntries]
  · intro m hn hm
    subst hn
    simp [getTop, jsSlice, bucketEntries, hm]
  · intro m hn hm
    subst hn
    have : ¬(0 ≤ m) := not_le.mpr hm
    simp [getTop, jsSlice, bucketEntries, this]

/-- A concrete snapshot with one three-entry bucket. -/
def snap3 : WSnap :=
  { version := some 1, updatedAt := some 0
    buckets := [("b", [("aa", 1), ("bb", 2), ("cc", 3)])]
    meta := some [], siteTitle := some "T", sessionId := none }

/-- C4 counterexample: with `n = 0` — not a finite positive number — the
cutoff actually used is 0, not 5: `getTop` returns the empty list while a
cutoff of 5 would return all three entries. -/
theorem getTop_zero_cutoff :
    getTop snap3 "b" (some 0) = [] ∧
    jsSlice (sortDesc Prod.snd (bucketEntries snap3 "b")) 5 =
      [("cc", 3), ("bb", 2), ("aa", 1)] ∧
    getTop snap3 "b" (some 0) ≠
      jsSlice (sortDesc Prod.snd (bucketEntries snap3 "b")) 5 := by
  refine ⟨by decide, by decide, by decide⟩

/-- Witness for C4's amended theorem at a concrete bucket: the default
cutoff case returns the whole sorted bucket. -/
theorem getTop_sorted_stable_sliced_witness :
    getTop snap3 "b" none = [("cc", 3), ("bb", 2), ("aa", 1)] := by
  have h := (getTop_sorted_stable_sliced snap3 "b" none).2.2.2.2.1 rfl
  rw [h]
  decide

/-! ### Folded increments (recordTokens) -/

/-- Effect on one stored raw weight of folding `inc` over a token list:
the addressed weight gains the coerced weight once per occurrence of the
key among the (non-empty) tokens, and nothing else changes. -/
theorem foldl_inc_look (l : List String) (e : Engine) (b : String) (w : Option ℚ)
    (t : ℕ) (B K : String) :
    bLook (l.foldl (fun acc tok => inc acc b tok w t) e).snap B K =
      if b ≠ "" ∧ K ≠ "" ∧ B = b ∧ 0 < l.count K
      then some ((bLook e.snap B K).getD 0 + (l.count K : ℚ) * jsWeight w)
      else bLook e.snap B K := by
  induction l generalizing e with
  | nil => simp
  | cons x xs ih =>
    rw [List.foldl_cons, ih (inc e b x w t)]
    have hx := inc_look e b x w t B K
    by_cases hb : b = ""
    · rw [if_neg (fun hc => hc.1 hb), if_neg (fun hc => hc.1 hb),
        hx, if_neg (fun hc => hc.1 hb)]
    · by_cases hK : K = ""
      · rw [if_neg (fun hc => hc.2.1 hK), if_neg (fun hc => hc.2.1 hK),
          hx, if_neg (fun hc => hc.2.1 (hc.2.2.2 ▸ hK))]
      · by_cases hB : B = b
        · by_cases hxK : x = K
          · have hxne : x ≠ "" := by rw [hxK]; exact hK
            rw [if_pos ⟨hb, hxne, hB, hxK.symm⟩] at hx
            have hcnt : (x :: xs).count K = xs.count K + 1 := by
              rw [hxK, List.count_cons_self]
            by_cases hc : 0 < xs.count K
            · rw [if_pos ⟨hb, hK, hB, hc⟩, if_pos ⟨hb, hK, hB, by rw [hcnt]; omega⟩,
                hx, hcnt]
              congr 1
              simp only [Option.getD_some]
              push_cast
              ring
            · have hc0 : xs.count K = 0 := Nat.eq_zero_of_not_pos hc
              rw [if_neg (fun hcon => hc hcon.2.2.2),
                if_pos ⟨hb, hK, hB, by rw [hcnt]; omega⟩, hx, hcnt, hc0]
              simp only [Option.some.injEq]
              push_cast
              ring
          · rw [if_neg (fun hc => hxK hc.2.2.2.symm)] at hx
            have hcnt : (x :: xs).count K = xs.count K :=
              List.count_cons_of_ne (fun hh => hxK hh.symm) xs
            rw [hx, hcnt]
        · rw [if_neg (fun hc => hB hc.2.2.1), if_neg (fun hc => hB hc.2.2.1),
            hx, if_neg (fun hc => hB hc.2.2.1)]

/-! ### C3: raw weights only grow by addition (amended: except set) -/

/-- C3 (amended): every engine operation other than `reset`, `import` and
the raw-weight overwrite `set` leaves each stored weight unchanged or
adds its (coerced) weight to the running total: `inc` adds exactly the
coerced weight to the addressed pair, metadata writes and affinity
updates never touch `buckets`, `record` affects `buckets` exactly as its
`inc` does, and `recordTokens` only ever adds a positive multiple of the
coerced weight. -/
theorem raw_weight_additive (e : Engine) (b k B K : String) (w : Option ℚ)
    (p : Option MetaRec) (t : ℕ) :
    (bLook (inc e b k w t).snap B K =
      if b ≠ "" ∧ k ≠ "" ∧ B = b ∧ K = k
      then some ((bLook e.snap B K).getD 0 + jsWeight w)
      else bLook e.snap B K) ∧
    (∀ e2 : Engine, setMeta e b k p t = Except.ok e2 →
      e2.snap.buckets = e.snap.buckets) ∧
    (∀ (H δ : ℝ) (e2 : Engine), updateAffinity H e b k δ t = Except.ok e2 →
      e2.snap.buckets = e.snap.buckets) ∧
    (∀ e2 : Engine, record e b k w p t = Except.ok e2 →
      e2.snap.buckets = (inc e b k w t).snap.buckets) ∧
    (∀ (stop : List String) (v : String),
      bLook (recordTokens stop e b v w t).snap B K = bLook e.snap B K ∨
      ∃ c : ℕ, 0 < c ∧ bLook (recordTokens stop e b v w t).snap B K =
        some ((bLook e.snap B K).getD 0 + (c : ℚ) * jsWeight w)) := by
  have hsetMeta : ∀ (ee e2 : Engine) (pp : Option MetaRec),
      setMeta ee b k pp t = Except.ok e2 → e2.snap.buckets = ee.snap.buckets := by
    intro ee e2 pp hok
    rcases pp with _ | pm
    · simp only [setMeta] at hok
      cases hok
      rfl
    · simp only [setMeta] at hok
      by_cases hbk : b = "" ∨ k = ""
      · rw [if_pos hbk] at hok
        cases hok
        rfl
      · rw [if_neg hbk] at hok
        rcases hmm : ee.snap.meta with _ | mm
        · rw [hmm] at hok
          cases hok
        · rw [hmm] at hok
          cases hok
          rfl
  refine ⟨inc_look e b k w t B K, fun e2 => hsetMeta e e2 p, ?_, ?_, ?_⟩
  · intro H δ e2 hok
    simp only [updateAffinity] at hok
    rcases hme : getMeta e.snap b k with u | m
    · rw [hme] at hok
      cases hok
    · rw [hme] at hok
      exact hsetMeta e e2 _ hok
  · intro e2 hok
    rcases p with _ | pm
    · simp only [record] at hok
      cases hok
      rfl
    · simp only [record] at hok
      exact hsetMeta (inc e b k w t) e2 (some pm) hok
  · intro stop v
    rw [recordTokens, foldl_inc_look]
    by_cases hcase : b ≠ "" ∧ K ≠ "" ∧ B = b ∧ 0 < (tokenize v stop).count K
    · right
      exact ⟨(tokenize v stop).count K, hcase.2.2.2, by rw [if_pos hcase]⟩
    · left
      rw [if_neg hcase]

/-- A concrete engine whose bucket `b` stores weight 10 at key `k`. -/
def engine10 : Engine :=
  { snap := { createData "T" 0 with buckets := [("b", [("k", 10)])] }, writes := [] }

/-- A concrete engine whose bucket `b` stores weight 20 at key `k`. -/
def engine20 : Engine :=
  { snap := { createData "T" 0 with buckets := [("b", [("k", 20)])] }, writes := [] }

/-- C3 counterexample: the bucket-store operation `set` (neither `reset`
nor `import`) replaces the stored raw weight with its argument,
independent of the prior total: from both 10 and 20 it produces 3, which
is neither the unchanged value nor the value plus the supplied weight. -/
theorem set_overwrites_raw_weight :
    bLook engine10.snap "b" "k" = some 10 ∧
    bLook engine20.snap "b" "k" = some 20 ∧
    bLook (set engine10 "b" "k" 3 5).snap "b" "k" = some 3 ∧
    bLook (set engine20 "b" "k" 3 5).snap "b" "k" = some 3 ∧
    ¬(bLook (set engine10 "b" "k" 3 5).snap "b" "k" = bLook engine10.snap "b" "k" ∨
      bLook (set engine10 "b" "k" 3 5).snap "b" "k" =
        some ((bLook engine10.snap "b" "k").getD 0 + 3)) := by
  have h3 : bLook (set engine10 "b" "k" 3 5).snap "b" "k" = some 3 := by decide
  have h10 : bLook engine10.snap "b" "k" = some 10 := by decide
  refine ⟨h10, by decide, h3, by decide, ?_⟩
  rintro (h | h)
  · rw [h3, h10] at h
    exact absurd h (by decide)
  · rw [h3, h10] at h
    simp only [Option.getD_some, Option.some.injEq] at h
    norm_num at h

/-- Witness for C3's amended theorem: a concrete `inc` adds exactly its
weight to the stored total. -/
theorem raw_weight_additive_witness :
    bLook (inc engine10 "b" "k" (some 2) 5).snap "b" "k" = some 12 := by
  have h := (raw_weight_additive engine10 "b" "k" "b" "k" (some 2) none 5).1
  have h10 : bLook engine10.snap "b" "k" = some 10 := by decide
  rw [h, if_pos ⟨by decide, by decide, rfl, rfl⟩, h10]
  simp only [Option.getD_some, jsWeight, Option.some.injEq]
  norm_num

/-! ### C8: tokenization and per-token increments -/

/-- C8: `recordTokens` lower-cases, splits on runs outside `[a-z0-9]`,
drops short and stop-listed tokens, and performs one independent `inc`
per surviving token — the stored weight of a key grows by (occurrence
count) × (coerced weight); the sample sentence tokenizes to exactly
`["soup"]`, and duplicated tokens are kept (no per-call de-duplication). -/
theorem recordTokens_tokenization :
    tokenize "It is How to Make a Soup" defaultStopWords = ["soup"] ∧
    tokenize "Soup soup" defaultStopWords = ["soup", "soup"] ∧
    (∀ (stop : List String) (e : Engine) (b v : String) (w : Option ℚ)
        (t : ℕ) (B K : String),
      bLook (recordTokens stop e b v w t).snap B K =
        if b ≠ "" ∧ K ≠ "" ∧ B = b ∧ 0 < (tokenize v stop).count K
        then some ((bLook e.snap B K).getD 0 + ((tokenize v stop).count K : ℚ) * jsWeight w)
        else bLook e.snap B K) := by
  refine ⟨by decide, by decide, ?_⟩
  intro stop e b v w t B K
  rw [recordTokens, foldl_inc_look]

/-- Witness exercising C8 on a fresh engine: the duplicated token is
incremented twice with the default weight 1. -/
theorem recordTokens_tokenization_witness :
    bLook (recordTokens defaultStopWords engine0 "search" "Soup soup" none 0).snap
      "search" "soup" = some 2 := by
  have h := recordTokens_tokenization.2.2 defaultStopWords engine0 "search" "Soup soup"
    none 0 "search" "soup"
  have hcnt : (tokenize "Soup soup" defaultStopWords).count "soup" = 2 := by decide
  have h0 : bLook engine0.snap "search" "soup" = none := by decide
  rw [h, if_pos ⟨by decide, by decide, rfl, by rw [hcnt]; omega⟩, hcnt, h0]
  simp only [Option.getD_none, jsWeight, Option.some.injEq]
  norm_num

/-! ### Rounding and decay lemmas -/

theorem round_mono_real {x y : ℝ} (h : x ≤ y) : round x ≤ round y := by
  rw [round_eq, round_eq]
  exact Int.floor_le_floor (by linarith)

theorem round2_mono {x y : ℝ} (h : x ≤ y) : round2 x ≤ round2 y := by
  unfold round2
  have h1 : round (x * 100) ≤ round (y * 100) := round_mono_real (by nlinarith)
  have h2 : ((round (x * 100) : ℤ) : ℝ) ≤ ((round (y * 100) : ℤ) : ℝ) := by
    exact_mod_cast h1
  linarith

/-- With a positive half-life, a fixed nonnegative value and a fixed
truthy decay start, the projected value is antitone in the read time. -/
theorem decayValue_antitone (H : ℝ) (hH : 0 < H) (c : ℝ) (hc : 0 ≤ c)
    (L : ℕ) (t1 t2 : ℕ) (ht : t1 ≤ t2) :
    decayValue H c L t2 ≤ decayValue H c L t1 := by
  unfold decayValue
  by_cases hc0 : c = 0
  · simp [hc0]
  · rw [if_neg hc0, if_neg hc0]
    by_cases hL : L = 0
    · rw [if_pos hL, if_pos hL]
    · rw [if_neg hL, if_neg hL]
      have hcpos : 0 < c := lt_of_le_of_ne hc (fun hh => hc0 hh.symm)
      have hlam : 0 < Real.log 2 / H := div_pos (Real.log_pos (by norm_num)) hH
      have hdt : ((t1 - L : ℕ) : ℝ) ≤ ((t2 - L : ℕ) : ℝ) := by
        exact_mod_cast Nat.sub_le_sub_right ht L
      have hexp : Real.exp (-(Real.log 2 / H) * ((t2 - L : ℕ) : ℝ)) ≤
          Real.exp (-(Real.log 2 / H) * ((t1 - L : ℕ) : ℝ)) := by
        apply Real.exp_le_exp.mpr
        nlinarith
      nlinarith [Real.exp_pos (-(Real.log 2 / H) * ((t2 - L : ℕ) : ℝ))]

/-- Reading at the very moment of the (falsy-fallback) decay start does
not change the value: `decayValue` at `t = lastTs` is the identity on a
nonzero value, in all branches. -/
theorem decayValue_self (H c : ℝ) (t : ℕ) :
    decayValue H c t t = if c = 0 then 0 else c := by
  unfold decayValue
  by_cases hc : c = 0
  · simp [hc]
  · rw [if_neg hc, if_neg hc]
    by_cases ht : t = 0
    · rw [if_pos ht]
    · rw [if_neg ht, Nat.sub_self]
      simp

/-! ### C5: affinity reads are non-increasing (amended: for nonnegative
stored affinity) -/

/-- C5 (amended): for an entity whose stored affinity is nonnegative, two
`getAffinity` reads with no intervening `applyDelta` and a non-decreasing
clock are non-increasing. -/
theorem getAffinity_nonincreasing (H : ℝ) (hH : 0 < H) (st : WSnap) (b k : String)
    (m : MetaRec) (t1 t2 : ℕ) (v1 v2 : ℝ)
    (hm : getMeta st b k = Except.ok m)
    (ha : 0 ≤ m.affinity.getD 0)
    (ht : t1 ≤ t2)
    (h1 : getAffinitySnap H st b k t1 = Except.ok v1)
    (h2 : getAffinitySnap H st b k t2 = Except.ok v2) :
    v2 ≤ v1 := by
  rw [getAffinitySnap, hm] at h1 h2
  simp only [Except.map] at h1 h2
  cases h1
  cases h2
  unfold getAffinityMeta
  apply round2_mono
  have hfixed : ∀ L : ℕ, L ≠ 0 →
      decayValue H (m.affinity.getD 0) L t2 ≤ decayValue H (m.affinity.getD 0) L t1 :=
    fun L _ => decayValue_antitone H hH _ ha L t1 t2 ht
  rcases haff : m.affinityUpdatedAt with _ | u
  · rcases hseen : m.lastSeenAt with _ | v
    · simp only [tsOr]
      rw [decayValue_self, decayValue_self]
    · by_cases hv : v = 0
      · simp only [tsOr, hv, if_pos]
        rw [decayValue_self, decayValue_self]
      · simp only [tsOr, if_neg hv]
        exact hfixed v hv
  · by_cases hu : u = 0
    · rcases hseen : m.lastSeenAt with _ | v
      · simp only [tsOr, hu, if_pos]
        rw [decayValue_self, decayValue_self]
      · by_cases hv : v = 0
        · simp only [tsOr, hu, hv, if_pos]
          rw [decayValue_self, decayValue_self]
        · simp only [tsOr, hu, if_pos, if_neg hv]
          exact hfixed v hv
    · simp only [tsOr, if_neg hu]
      exact hfixed u hu

/-- Default half-life (DEFAULT_CONFIG.affinityHalfLifeMs, line 21):
seven days in milliseconds. -/
def defaultHalfLife : ℝ := 604800000

/-- Metadata record with a negative stored affinity (reachable through a
negative `data-track-weight`). -/
def metaNeg : MetaRec := { affinity := some (-4), affinityUpdatedAt := some 1 }

/-- Snapshot storing `metaNeg` at bucket `b`, key `k`. -/
def snapNeg : WSnap :=
  { version := some 1, updatedAt := some 1, buckets := []
    meta := some [("b", [("k", metaNeg)])], siteTitle := some "T", sessionId := none }

theorem round2_neg_four : round2 (-4) = -4 := by
  have h : (-4 : ℝ) * 100 = ((-400 : ℤ) : ℝ) := by norm_num
  rw [round2, h, round_intCast]
  norm_num

theorem round2_neg_two : round2 (-2) = -2 := by
  have h : (-2 : ℝ) * 100 = ((-200 : ℤ) : ℝ) := by norm_num
  rw [round2, h, round_intCast]
  norm_num

/-- C5 counterexample: with a negative stored affinity (weight −4 at time
1), `getAffinity` read one half-life later returns −2 > −4: the decayed
read strictly increased although the clock advanced and no `applyDelta`
intervened. -/
theorem getAffinity_increases_on_negative :
    getAffinitySnap defaultHalfLife snapNeg "b" "k" 1 = Except.ok (-4) ∧
    getAffinitySnap defaultHalfLife snapNeg "b" "k" 604800001 = Except.ok (-2) ∧
    ¬((-2 : ℝ) ≤ (-4 : ℝ)) := by
  have hmeta : getMeta snapNeg "b" "k" = Except.ok metaNeg := rfl
  have h1 : getAffinityMeta defaultHalfLife metaNeg 1 = -4 := by
    rw [getAffinityMeta]
    have hts : tsOr metaNeg.affinityUpdatedAt (tsOr metaNeg.lastSeenAt 1) = 1 := rfl
    rw [hts]
    have hc : metaNeg.affinity.getD 0 = -4 := rfl
    rw [hc, decayValue_self, if_neg (by norm_num), round2_neg_four]
  have h2 : getAffinityMeta defaultHalfLife metaNeg 604800001 = -2 := by
    rw [getAffinityMeta]
    have hts : tsOr metaNeg.affinityUpdatedAt (tsOr metaNeg.lastSeenAt 604800001) = 1 := rfl
    rw [hts]
    have hc : metaNeg.affinity.getD 0 = -4 := rfl
    rw [hc, decayValue, if_neg (by norm_num), if_neg (by norm_num)]
    have hdt : ((604800001 - 1 : ℕ) : ℝ) = 604800000 := by norm_num
    rw [hdt]
    have hlam : -(Real.log 2 / defaultHalfLife) * 604800000 = -Real.log 2 := by
      rw [defaultHalfLife]
      field_simp
    rw [hlam, Real.exp_neg, Real.exp_log (by norm_num : (0 : ℝ) < 2)]
    have : (-4 : ℝ) * (2 : ℝ)⁻¹ = -2 := by norm_num
    rw [this, round2_neg_two]
  refine ⟨?_, ?_, by norm_num⟩
  · rw [getAffinitySnap, hmeta, Except.map, h1]
  · rw [getAffinitySnap, hmeta, Except.map, h2]

/-- Metadata record with a positive stored affinity. -/
def metaPos : MetaRec := { affinity := some 4, affinityUpdatedAt := some 1 }

/-- Snapshot storing `metaPos` at bucket `b`, key `k`. -/
def snapPos : WSnap :=
  { version := some 1, updatedAt := some 1, buckets := []
    meta := some [("b", [("k", metaPos)])], siteTitle := some "T", sessionId := none }

/-- Witness for C5's amended theorem at a concrete nonnegative entity and
concrete read times. -/
theorem getAffinity_nonincreasing_witness :
    getAffinityMeta defaultHalfLife metaPos 604800001 ≤
      getAffinityMeta defaultHalfLife metaPos 1 := by
  exact getAffinity_nonincreasing defaultHalfLife (by rw [defaultHalfLife]; norm_num)
    snapPos "b" "k" metaPos 1 604800001 _ _ rfl
    (by rw [show metaPos.affinity = some 4 from rfl]; norm_num)
    (by omega) rfl rfl

/-! ### C9: applyDelta projection, rounding and write-back -/

/-- Unfolding of a successful `setMeta` on a snapshot whose `meta` object
exists. -/
theorem setMeta_ok (e : Engine) (b k : String) (pm : MetaRec) (t : ℕ) (mm : MetaMap) (hb : b ≠ "") (hk : k ≠ "") (hE : e.snap.meta = some mm) : setMeta e b k (some pm) t = Except.ok (save { e with snap := { e.snap with meta := some (aset mm b (aset ((alook mm b).getD []) k (assign ((alook ((alook mm b).getD []) k).getD emptyMeta) pm))) } } t) := by
  simp only [setMeta]
  rw [if_neg (not_or.mpr ⟨hb, hk⟩), hE]

/-- Reading back the record just written through an `aset` chain. -/
theorem getMeta_save_aset (e : Engine) (b k : String) (mr : MetaRec) (t : ℕ) (mm : MetaMap) : getMeta (save { e with snap := { e.snap with meta := some (aset mm b (aset ((alook mm b).getD []) k mr)) } } t).snap b k = Except.ok mr := by
  simp only [getMeta, save]
  rw [alook_aset_self]
  simp only [Option.getD_some]
  rw [alook_aset_self]
  simp only [Option.getD_some]

/-- C9: `_updateAffinity` projects the stored affinity to now with decay
start `affinityUpdatedAt` (falling back to `lastSeenAt` when absent),
adds the delta, rounds to two decimals by rounding — half rounds up, not
truncation — and merges back exactly `{affinity, affinityUpdatedAt: now}`,
leaving every other metadata field untouched. -/
theorem updateAffinity_spec (H : ℝ) (e : Engine) (b k : String) (m : MetaRec)
    (delta : ℝ) (t : ℕ)
    (hb : b ≠ "") (hk : k ≠ "")
    (hm : getMeta e.snap b k = Except.ok m) :
    ((updateAffinity H e b k delta t).map (fun e2 => getMeta e2.snap b k) =
      Except.ok (Except.ok (assign m (affPartial (updAff H m delta t) t)))) ∧
    (updAff H m delta t = round2 (decayValue H (m.affinity.getD 0)
      (tsOr m.affinityUpdatedAt (tsOr m.lastSeenAt t)) t + delta)) ∧
    (∀ u : ℕ, m.affinityUpdatedAt = some u → u ≠ 0 →
      tsOr m.affinityUpdatedAt (tsOr m.lastSeenAt t) = u) ∧
    (∀ v : ℕ, m.affinityUpdatedAt = none → m.lastSeenAt = some v → v ≠ 0 →
      tsOr m.affinityUpdatedAt (tsOr m.lastSeenAt t) = v) ∧
    (∀ a : ℝ,
      (assign m (affPartial a t)).affinity = some a ∧
      (assign m (affPartial a t)).affinityUpdatedAt = some t ∧
      (assign m (affPartial a t)).clicks = m.clicks ∧
      (assign m (affPartial a t)).lastClickAt = m.lastClickAt ∧
      (assign m (affPartial a t)).lastSeenAt = m.lastSeenAt ∧
      (assign m (affPartial a t)).others = m.others) ∧
    (round2 ((2017 : ℝ) / 1000) = 101 / 50 ∧
      ((⌊((2017 : ℝ) / 1000) * 100⌋ : ℤ) : ℝ) / 100 = 201 / 100 ∧
      ((101 : ℝ) / 50) ≠ 201 / 100) := by
  refine ⟨?_, rfl, ?_, ?_, ?_, ?_, ?_, ?_⟩
  · rcases hE : e.snap.meta with _ | mm
    · exfalso
      rw [getMeta.eq_def, hE] at hm
      exact Except.noConfusion hm
    · have hcur : (alook ((alook mm b).getD []) k).getD emptyMeta = m := by
        rw [getMeta.eq_def, hE] at hm
        exact Except.ok.inj hm
      have h1 : updateAffinity H e b k delta t =
          setMeta e b k (some (affPartial (updAff H m delta t) t)) t := by
        simp only [updateAffinity]
        rw [hm]
      rw [h1, setMeta_ok e b k (affPartial (updAff H m delta t) t) t mm hb hk hE]
      simp only [Except.map]
      rw [getMeta_save_aset, hcur]
  · intro u hu hne
    rw [hu]
    simp only [tsOr]
    rw [if_neg hne]
  · intro v hu hv hne
    rw [hu, hv]
    simp only [tsOr]
    rw [if_neg hne]
  · intro a
    refine ⟨rfl, rfl, rfl, rfl, rfl, ?_⟩
    simp [assign, affPartial]
  · have h100 : ((2017 : ℝ) / 1000) * 100 = 2017 / 10 := by norm_num
    have hr : round ((2017 : ℝ) / 10) = 202 := by
      rw [round_eq]
      have : (2017 : ℝ) / 10 + 1 / 2 = 2022 / 10 := by norm_num
      rw [this]
      have : ⌊(2022 : ℝ) / 10⌋ = 202 := by
        apply Int.floor_eq_iff.mpr
        constructor <;> norm_num
      exact this
    rw [round2, h100, hr]
    norm_num
  · have h100 : ((2017 : ℝ) / 1000) * 100 = 2017 / 10 := by norm_num
    rw [h100]
    have : ⌊(2017 : ℝ) / 10⌋ = 201 := by
      apply Int.floor_eq_iff.mpr
      constructor <;> norm_num
    rw [this]
    norm_num
  · norm_num

/-- An engine whose metadata stores clicks, affinity and a last-seen
time at bucket `b`, key `k`. -/
def engineM : Engine :=
  { snap :=
    { version := some 1, updatedAt := some 1, buckets := []
      meta := some [("b", [("k",
        { clicks := some 7, affinity := some 4, affinityUpdatedAt := some 1
          lastSeenAt := some 1 })])]
      siteTitle := some "T", sessionId := none }
    writes := [] }

/-- Witness for C9 at a concrete engine, delta and time: the write-back
is exactly the shallow merge of the projected rounded affinity. -/
theorem updateAffinity_spec_witness :
    (updateAffinity defaultHalfLife engineM "b" "k" 2 9).map
        (fun e2 => getMeta e2.snap "b" "k") =
      Except.ok (Except.ok (assign
        { clicks := some 7, affinity := some 4, affinityUpdatedAt := some 1
          lastSeenAt := some 1 }
        (affPartial (updAff defaultHalfLife
          { clicks := some 7, affinity := some 4, affinityUpdatedAt := some 1
            lastSeenAt := some 1 } 2 9) 9))) := by
  exact (updateAffinity_spec defaultHalfLife engineM "b" "k"
    { clicks := some 7, affinity := some 4, affinityUpdatedAt := some 1
      lastSeenAt := some 1 } 2 9 (by decide) (by decide) rfl).1

/-! ### C10: read-only queries leave the state alone -/

/-- `copySnap` is a faithful deep copy: the exported document is
structurally equal to the active snapshot. -/
theorem copySnap_eq (st : WSnap) : copySnap st = st := by
  rcases st with ⟨v, u, bs, ms, s, sid⟩
  simp [copySnap]

/-- C10: every read-only operation — getTop, getMeta, getAffinity,
getTopByClicks, getTopByAffinity, getTopItems, getClickCount, export —
returns the engine state it was given: the snapshot (buckets, meta,
updatedAt, fingerprint, sessionId) is unchanged and the storage write
log does not grow; export hands out a deep copy equal to the snapshot. -/
theorem queries_pure (H : ℝ) (e : Engine) (b k : String) (n : Option ℤ) (t : ℕ) :
    (getTopE e b n).1 = e ∧
    (getMetaE e b k).1 = e ∧
    (getAffinityE H e b k t).1 = e ∧
    (getTopByClicksE e b n).1 = e ∧
    (getTopByAffinityE H e b n t).1 = e ∧
    (getTopItemsE H e n t).1 = e ∧
    (getClickCountE e b k).1 = e ∧
    (exportJSONE e).1 = e ∧
    (getTopE e b n).1.writes = e.writes ∧
    (exportJSONE e).2 = e.snap :=
  ⟨rfl, rfl, rfl, rfl, rfl, rfl, rfl, rfl, rfl, copySnap_eq e.snap⟩

end InterestKit
